import Mathlib

/-!
Verification of the fledermaus core document pipeline (`src/core.js`).

The JavaScript code is shallowly embedded: JS objects become association
lists (`List (key × value)`) whose update operation mirrors JS property
assignment, JS strings become `List Char`, JS dynamic values become the
`JsVal` inductive, and functions that `throw` return `Except`.  External
collaborators (the front-matter splitter `fastmatter`, renderer tables,
the RSS serializer) are passed in as explicit function parameters, as the
code itself treats them as pluggable capabilities.
-/

set_option linter.unusedVariables false

/-- A JavaScript runtime value, as far as the pipeline inspects one:
`undefined`, `null`, booleans, numbers (modelled as integers), strings
(modelled as `List Char`), arrays and plain objects. -/
inductive JsVal where
  | undef : JsVal
  | null : JsVal
  | b : Bool → JsVal
  | n : Int → JsVal
  | s : List Char → JsVal
  | arr : List JsVal → JsVal
  | obj : List (String × JsVal) → JsVal

/-- A JS object: an insertion-ordered association list of properties. -/
abbrev Obj := List (String × JsVal)

/-- A parsed document is a JS object of fields. -/
abbrev Doc := Obj

/-- JS property read `o[k]` returning `none` when the key is absent. -/
def objLookup {κ β : Type} [DecidableEq κ] : List (κ × β) → κ → Option β
  | [], _ => none
  | (k', v) :: rest, k => if k' = k then some v else objLookup rest k

/-- JS property write `o[k] = v`: overwrite the existing entry in place,
or append a new entry at the end (JS insertion order). -/
def objSet {κ β : Type} [DecidableEq κ] : List (κ × β) → κ → β → List (κ × β)
  | [], k, v => [(k, v)]
  | (k', v') :: rest, k, v =>
    if k' = k then (k, v) :: rest else (k', v') :: objSet rest k v

/-- The JS object spread `{...a, ...b}`: assign every property of `b` over
a copy of `a` (shallow, right biased). -/
def jsSpread {κ β : Type} [DecidableEq κ] (a b : List (κ × β)) : List (κ × β) :=
  b.foldl (fun o kv => objSet o kv.1 kv.2) a

/-- JS property read on a document: a missing field reads as `undefined`. -/
def getField (document : Obj) (field : String) : JsVal :=
  (objLookup document field).getD JsVal.undef

/-- JS truthiness: `undefined`, `null`, `false`, `0` and `""` are falsy,
everything else (including every array and object) is truthy. -/
def jsTruthy : JsVal → Bool
  | JsVal.undef => false
  | JsVal.null => false
  | JsVal.b bv => bv
  | JsVal.n i => decide (i ≠ 0)
  | JsVal.s str => decide (str ≠ [])
  | JsVal.arr _ => true
  | JsVal.obj _ => true

/-- Decimal digits of a natural number, fuel-recursive so that it reduces
definitionally (the fuel `n + 1` always suffices since `n / 10 < n`). -/
def natToCharsAux : Nat → Nat → List Char → List Char
  | 0, _, acc => acc
  | fuel + 1, m, acc =>
    let acc := Nat.digitChar (m % 10) :: acc
    if m < 10 then acc else natToCharsAux fuel (m / 10) acc

/-- JS number-to-string conversion for a natural number. -/
def natToChars (m : Nat) : List Char := natToCharsAux (m + 1) m []

/-- JS number-to-string conversion for an integer. -/
def intToChars (i : Int) : List Char :=
  if i < 0 then '-' :: natToChars i.natAbs else natToChars i.natAbs

mutual

/-- JS string coercion `String(v)` of a value, as used for template
literals and for object property keys. -/
def jsToString : JsVal → List Char
  | JsVal.undef => "undefined".data
  | JsVal.null => "null".data
  | JsVal.b true => "true".data
  | JsVal.b false => "false".data
  | JsVal.n i => intToChars i
  | JsVal.s str => str
  | JsVal.arr xs => jsArrToString xs
  | JsVal.obj _ => "[object Object]".data

/-- JS `Array.prototype.toString`: elements joined by commas, where
`null` and `undefined` elements print as the empty string. -/
def jsArrToString : List JsVal → List Char
  | [] => []
  | v :: rest =>
    let head : List Char :=
      match v with
      | JsVal.undef => []
      | JsVal.null => []
      | w => jsToString w
    match rest with
    | [] => head
    | _ :: _ => head ++ ',' :: jsArrToString rest

end

/-- First occurrence of `sep` in a string: `some (before, after)` split
around the first match, `none` when `sep` never occurs. -/
def splitFirst (sep : List Char) : List Char → Option (List Char × List Char)
  | [] => if sep <+: ([] : List Char) then some ([], []) else none
  | c :: rest =>
    if sep <+: c :: rest then some ([], (c :: rest).drop sep.length)
    else (splitFirst sep rest).map (fun p => (c :: p.1, p.2))

/-- Fuel-driven worker for `jsSplit` (structural, so it reduces). -/
def jsSplitAux (sep : List Char) : Nat → List Char → List (List Char)
  | 0, str => [str]
  | fuel + 1, str =>
    match splitFirst sep str with
    | none => [str]
    | some (a, bs) => a :: jsSplitAux sep fuel bs

/-- JS `str.split(sep)` for a string separator: the pieces of `str`
between occurrences of `sep`; the empty separator splits into characters. -/
def jsSplit (sep str : List Char) : List (List Char) :=
  if sep = [] then str.map (fun c => [c]) else jsSplitAux sep (str.length + 1) str

/-- JS `str.replace(pat, rep)` with a plain (non-global) pattern: replace
only the first occurrence. -/
def jsReplaceFirst (pat rep str : List Char) : List Char :=
  match splitFirst pat str with
  | none => str
  | some (a, bs) => a ++ rep ++ bs

/-- JS `str.trim()`: whitespace stripped from both ends. -/
def jsTrim (str : List Char) : List Char :=
  ((str.dropWhile Char.isWhitespace).reverse.dropWhile Char.isWhitespace).reverse

/-- The JS idiom `str && str.trim()` on a string: the empty string is
falsy and is returned as is, every other string is trimmed. -/
def jsAndTrim (str : List Char) : List Char := if str = [] then str else jsTrim str

/-- Worker for the extension helpers: walks the reversed string and
returns the part after the extension (reversed) when the last path
segment holds a dot. -/
def dropExtRev : List Char → Option (List Char)
  | [] => none
  | c :: rest => if c = '/' then none else if c = '.' then some rest else dropExtRev rest

/-- Worker for `getExtension`: the reversed extension characters before
the last dot of the last path segment, if any. -/
def takeExtRev : List Char → Option (List Char)
  | [] => none
  | c :: rest =>
    if c = '/' then none
    else if c = '.' then some []
    else (takeExtRev rest).map (fun e => c :: e)

/-- Modelled from the spec: `util.removeExtension` (the `src/util.js`
module is not among the repository files given).  Per §2 PathUtil and
§4.1, it strips the file extension: the final dot of the last path
segment and everything after it; a path without an extension is
unchanged. -/
def removeExtension (filepath : List Char) : List Char :=
  match dropExtRev filepath.reverse with
  | some r => r.reverse
  | none => filepath

/-- Modelled from the spec: `util.getExtension` (the `src/util.js` module
is not among the repository files given).  Per §2 PathUtil and §4.1, it
returns the file extension (the text after the final dot of the last
path segment), or the empty string when there is none. -/
def getExtension (filepath : List Char) : List Char :=
  match takeExtRev filepath.reverse with
  | some e => e.reverse
  | none => []

/-- `filepathToUrl` (`src/core.js` lines 22-29): prepend `/`, strip the
extension, strip one trailing `/index` (the regex `/\/index$/`), and
fall back to `/` when the result is empty. -/
def filepathToUrl (filepath : List Char) : List Char :=
  let url := '/' :: removeExtension filepath
  let url := if "/index".data <:+ url then url.take (url.length - 6) else url
  if url = [] then "/".data else url

/-- A content renderer from the caller-supplied `{ext: renderFunction}`
table: raw body in, rendered body out. -/
abbrev ContentRenderer := List Char → List Char

/-- `renderByType` (`src/core.js` lines 39-46): dispatch on the file
extension through the renderer table; with no matching entry the source
passes through unrendered.  (The `_.isFunction` guard is carried by the
table's type: every stored entry is a function.) -/
def renderByType (source filepath : List Char)
    (renderers : List (List Char × ContentRenderer)) : List Char :=
  match objLookup renderers (getExtension filepath) with
  | some render => render source
  | none => source

/-- `parseCustomFields` (`src/core.js` lines 55-64): apply every custom
field parser to the raw value of its field (with the full metadata map
as second argument) and spread the parsed fields over the original
attributes. -/
def parseCustomFields (attributes : Obj)
    (fieldParsers : List (String × (JsVal → Obj → JsVal))) : Obj :=
  let parsedAttributes :=
    fieldParsers.foldl
      (fun acc np => objSet acc np.1 (np.2 (getField attributes np.1) attributes)) []
  jsSpread attributes parsedAttributes

/-- The options object taken by `parsePage`: content renderers, custom
field parsers and the optional cut marker (`none` models an absent
`cutTag`; the empty string is falsy in JS and is also "not configured"). -/
structure PageOptions where
  renderers : List (List Char × ContentRenderer)
  fieldParsers : List (String × (JsVal → Obj → JsVal))
  cutTag : Option (List Char)

/-- The JS fields `excerpt: excerpt && excerpt.trim()`: an undefined
excerpt stays undefined, a string one is trimmed (`""` is falsy and
stays `""`, which equals its trim). -/
def jsOptTrim : Option (List Char) → JsVal
  | none => JsVal.undef
  | some e => JsVal.s (jsAndTrim e)

/-- `parsePage` (`src/core.js` lines 76-99).  The front-matter splitter
`fastmatter` is an external collaborator and is passed in explicitly; it
turns the raw source into `(attributes, body)`.  The rendered body is
split on the configured cut marker (when that marker is truthy) exactly
as `[excerpt, more] = content.split(cutTag)` does: `excerpt` is the
first piece, `more` the second, either `undefined` when missing. -/
def parsePage (fastmatter : List Char → Obj × List Char)
    (source filepath : List Char) (options : PageOptions) : Obj :=
  let attributes := (fastmatter source).1
  let body := (fastmatter source).2
  let url := filepathToUrl filepath
  let content := renderByType body filepath options.renderers
  let cut : Option (List Char) × Option (List Char) :=
    match options.cutTag with
    | some tag =>
      if tag = [] then (none, none)
      else ((jsSplit tag content).get? 0, (jsSplit tag content).get? 1)
    | none => (none, none)
  let extendedAttributes :=
    objSet (objSet (objSet (objSet (objSet attributes
      "sourcePath" (JsVal.s filepath))
      "content" (JsVal.s (jsAndTrim content)))
      "excerpt" (jsOptTrim cut.1))
      "more" (jsOptTrim cut.2))
      "url" (JsVal.s url)
  parseCustomFields extendedAttributes options.fieldParsers

/-- The intermediate shape produced by `readConfigFiles`: the base
config and the per-language configs keyed by language code. -/
structure Configs where
  base : Obj
  langs : List (String × Obj)

/-- `mergeConfigs` (`src/core.js` lines 173-190): start from
`{base: configs.base}`; when language configs exist, assign
`merged[lang] = {...base, ...langs[lang]}` for every language, reducing
over that same starting object. -/
def mergeConfigs (configs : Configs) : List (String × Obj) :=
  let baseConfig := [("base", configs.base)]
  if configs.langs.isEmpty then baseConfig
  else
    configs.langs.foldl
      (fun merged lc => objSet merged lc.1 (jsSpread configs.base lc.2)) baseConfig

/-- The `field` argument of `groupDocuments`: either a field name or a
key-computing function.  (A JS function used as a property key coerces
to its source text and matches no document field, so the field read
`document[field]` yields `undefined` in the function case.) -/
inductive GroupField where
  | fieldName (f : String)
  | fieldFn (g : Doc → JsVal)

/-- JS property keys are strings: the coercion applied to a group value
when it is used as `grouped[value]`. -/
def jsToKey : JsVal → List Char := jsToString

/-- The documents stored so far under `key` (a missing group reads as
the empty list, matching the `if (!grouped[value]) grouped[value] = []`
initialisation). -/
def groupGet (grouped : List (List Char × List Doc)) (key : List Char) : List Doc :=
  (objLookup grouped key).getD []

/-- `grouped[key].push(document)` after initialising a missing group. -/
def pushGroup (grouped : List (List Char × List Doc)) (key : List Char)
    (document : Doc) : List (List Char × List Doc) :=
  objSet grouped key (groupGet grouped key ++ [document])

/-- One step of the `groupDocuments` reduce (`src/core.js` lines
254-277): read `document[field]`; an array value places the document
under every element; otherwise a function field computes the value, a
falsy value contributes nothing, and a truthy value places the document
under its key. -/
def groupStep (field : GroupField) (grouped : List (List Char × List Doc))
    (document : Doc) : List (List Char × List Doc) :=
  let value := match field with
    | GroupField.fieldName f => getField document f
    | GroupField.fieldFn _ => JsVal.undef
  match value with
  | JsVal.arr xs =>
    xs.foldl (fun g subValue => pushGroup g (jsToKey subValue) document) grouped
  | _ =>
    let value := match field with
      | GroupField.fieldFn g => g document
      | _ => value
    if jsTruthy value then pushGroup grouped (jsToKey value) document else grouped

/-- `groupDocuments` (`src/core.js` lines 253-278). -/
def groupDocuments (documents : List Doc) (field : GroupField) :
    List (List Char × List Doc) :=
  documents.foldl (groupStep field) []

/-- `getPageNumberUrl` (`src/core.js` lines 288-302): page 1 is the bare
prefix (or `prefix + "/index"` under the `index` option), later pages
get `/page/{n}`; then `url.replace(/\/\//, '/')` collapses the first
double slash only (the regex is not global). -/
def getPageNumberUrl (urlPrefix : List Char) (pageNumber : Nat) (index : Bool) :
    List Char :=
  let url :=
    if pageNumber = 1 then
      if index then urlPrefix ++ "/index".data else urlPrefix
    else urlPrefix ++ "/page/".data ++ natToChars pageNumber
  jsReplaceFirst "//".data "/".data url

/-- A synthetic pagination page (`PaginationPage` of §3): the `extra`
options spread in first, then the fields the paginator always writes. -/
structure PaginationPage (α : Type) where
  extra : Obj
  previousUrl : Option (List Char)
  nextUrl : Option (List Char)
  documents : List α
  documentsTotal : Nat
  sourcePath : List Char
  layout : List Char
  url : List Char

/-- The options object taken by `paginate`; `none` models an absent
(`undefined`) option.  JS numbers are modelled as naturals here: the
paginator only counts documents and pages. -/
structure PaginateOptions where
  sourcePathPrefix : Option (List Char)
  urlPrefix : Option (List Char)
  documentsPerPage : Option Nat
  layout : Option (List Char)
  index : Bool
  extra : Obj

/-- `paginate` (`src/core.js` lines 316-348): validate the four required
options (`=== undefined` for the two prefixes, JS-falsy for
`documentsPerPage` and `layout`), compute `Math.ceil(length / perPage)`
pages, and build one page object per page number with the slice
`[begin, begin + perPage)`, the total count, prev/next URLs (null at the
boundaries) and the numbered source path and URL. -/
def paginate {α : Type} (documents : List α) (options : PaginateOptions) :
    Except (List Char) (List (PaginationPage α)) :=
  if options.sourcePathPrefix = none then
    Except.error "\"sourcePathPrefix\" not specified for paginate().".data
  else if options.urlPrefix = none then
    Except.error "\"urlPrefix\" not specified for paginate().".data
  else if options.documentsPerPage.getD 0 = 0 then
    Except.error "\"documentsPerPage\" not specified for paginate().".data
  else if options.layout.getD [] = [] then
    Except.error "\"layout\" not specified for paginate().".data
  else
    let sourcePathPre := options.sourcePathPrefix.getD []
    let urlPre := options.urlPrefix.getD []
    let documentsPerPage := options.documentsPerPage.getD 0
    let layoutName := options.layout.getD []
    let totalPages := (documents.length + documentsPerPage - 1) / documentsPerPage
    Except.ok ((List.range totalPages).map (fun pn =>
      let pageNumber := pn + 1
      { extra := options.extra
        previousUrl :=
          if 1 < pageNumber then some (getPageNumberUrl urlPre (pageNumber - 1) false)
          else none
        nextUrl :=
          if pageNumber < totalPages then
            some (getPageNumberUrl urlPre (pageNumber + 1) false)
          else none
        documents :=
          (documents.drop ((pageNumber - 1) * documentsPerPage)).take documentsPerPage
        documentsTotal := documents.length
        sourcePath := getPageNumberUrl sourcePathPre pageNumber options.index
        layout := layoutName
        url := getPageNumberUrl urlPre pageNumber false }))

/-- An entry of the render context built by `makeContext`: the site
config stored under `"config"`, a document field, or a helper function
bound to the context (`κ` abstracts the helper's function value, which
the pipeline never inspects). -/
inductive CtxEntry (γ κ : Type) where
  | field (v : JsVal)
  | configEntry (c : γ)
  | helperFn (h : κ)

/-- The render context object: name to entry, in JS insertion order. -/
abbrev RenderContext (γ κ : Type) := List (String × CtxEntry γ κ)

/-- `makeContext` (`src/core.js` lines 358-370): the literal
`{config, ...document}` writes the config entry first and then every
document field over it; afterwards each helper is bound and assigned
over the context under its own name. -/
def makeContext {γ κ : Type} (document : Doc) (config : γ)
    (helpers : List (String × κ)) : RenderContext γ κ :=
  let context :=
    document.foldl (fun ctx kv => objSet ctx kv.1 (CtxEntry.field kv.2))
      [("config", CtxEntry.configEntry config)]
  helpers.foldl (fun ctx nh => objSet ctx nh.1 (CtxEntry.helperFn nh.2)) context

/-- How `generatePage` fails: a configuration error thrown with a
message, or the JS `TypeError` that destructuring
`_.toPairs(renderers).shift()` raises on an empty renderer table (also
used for a non-string `sourcePath`/`layout`, which would crash the
string helpers). -/
inductive PageError where
  | configError (msg : List Char)
  | typeError

/-- The output of `generatePage`: the page path and rendered content. -/
structure GeneratedPage where
  pagePath : List Char
  content : List Char

/-- `generatePage` (`src/core.js` lines 381-409): a falsy
`document.sourcePath` or `document.layout` throws a configuration error
(the latter naming the source path); an `"RSS"` layout delegates to the
external RSS serializer with output extension `.xml`; otherwise the
first renderer-table entry renders `"{layout}.{templateExtension}"` with
the context, and the output path replaces the source extension with the
extension embedded in the layout name, defaulting to `html`. -/
def generatePage {γ κ : Type} (renderRss : RenderContext γ κ → List Char)
    (document : Doc) (config : γ) (helpers : List (String × κ))
    (renderers : List (List Char × (List Char → RenderContext γ κ → List Char))) :
    Except PageError GeneratedPage :=
  if jsTruthy (getField document "sourcePath") = false then
    Except.error (PageError.configError
      "Source path not specified. Add \"sourcePath\" front matter field.".data)
  else if jsTruthy (getField document "layout") = false then
    Except.error (PageError.configError
      ("Layout not specified for ".data ++ jsToString (getField document "sourcePath")
        ++ ". Add \"layout\" front matter field.".data))
  else
    match getField document "sourcePath", getField document "layout" with
    | JsVal.s sourcePathStr, JsVal.s layoutStr =>
      let pagePath := removeExtension sourcePathStr
      let pageContext := makeContext document config helpers
      if layoutStr = "RSS".data then
        Except.ok ⟨pagePath ++ ".xml".data, renderRss pageContext⟩
      else
        match renderers with
        | [] => Except.error PageError.typeError
        | (templateExtension, render) :: _ =>
          let content := render (layoutStr ++ '.' :: templateExtension) pageContext
          let pageExtension :=
            if getExtension layoutStr = [] then "html".data else getExtension layoutStr
          Except.ok ⟨pagePath ++ '.' :: pageExtension, content⟩
    | _, _ => Except.error PageError.typeError

/-! ### Association-list lemmas: JS property read after write -/

theorem objLookup_objSet {κ β : Type} [DecidableEq κ] (o : List (κ × β)) (k k' : κ)
    (v : β) :
    objLookup (objSet o k v) k' = if k' = k then some v else objLookup o k' := by
  induction o with
  | nil =>
    by_cases h : k' = k
    · subst h; simp [objSet, objLookup]
    · simp [objSet, objLookup, h, Ne.symm h]
  | cons hd tl ih =>
    obtain ⟨a, w⟩ := hd
    by_cases h1 : a = k
    · subst h1
      by_cases h2 : k' = a
      · subst h2; simp [objSet, objLookup]
      · simp [objSet, objLookup, h2, Ne.symm h2]
    · by_cases h3 : a = k'
      · subst h3
        simp [objSet, objLookup, h1, Ne.symm h1]
      · simp [objSet, objLookup, h1, h3, ih]

theorem objLookup_eq_none {κ β : Type} [DecidableEq κ] (o : List (κ × β)) (k : κ) :
    k ∉ o.map Prod.fst → objLookup o k = none := by
  induction o with
  | nil => intro _; rfl
  | cons hd tl ih =>
    intro h
    obtain ⟨a, w⟩ := hd
    simp only [List.map_cons, List.mem_cons, not_or] at h
    simp [objLookup, Ne.symm h.1, ih h.2]

theorem objLookup_of_mem {κ β : Type} [DecidableEq κ] (o : List (κ × β)) (k : κ)
    (v : β) :
    (k, v) ∈ o → (o.map Prod.fst).Nodup → objLookup o k = some v := by
  induction o with
  | nil => intro hmem _; cases hmem
  | cons hd tl ih =>
    intro hmem hnd
    simp only [List.map_cons, List.nodup_cons] at hnd
    rcases List.mem_cons.mp hmem with heq | htl
    · subst heq; simp [objLookup]
    · have hk : k ∈ tl.map Prod.fst := List.mem_map.mpr ⟨(k, v), htl, rfl⟩
      have hne : hd.1 ≠ k := fun hh => hnd.1 (hh ▸ hk)
      simpa [objLookup, hne] using ih htl hnd.2

theorem objSet_of_notMem {κ β : Type} [DecidableEq κ] (o : List (κ × β)) (k : κ)
    (v : β) :
    k ∉ o.map Prod.fst → objSet o k v = o ++ [(k, v)] := by
  induction o with
  | nil => intro _; rfl
  | cons hd tl ih =>
    intro h
    obtain ⟨a, w⟩ := hd
    simp only [List.map_cons, List.mem_cons, not_or] at h
    simp [objSet, Ne.symm h.1, ih h.2]

theorem objLookup_jsSpread {κ β : Type} [DecidableEq κ] (b : List (κ × β)) :
    ∀ (a : List (κ × β)) (k : κ), (b.map Prod.fst).Nodup →
      objLookup (jsSpread a b) k = (objLookup b k).or (objLookup a k) := by
  induction b with
  | nil => intro a k _; simp [jsSpread, objLookup]
  | cons hd tl ih =>
    intro a k hnd
    obtain ⟨k₀, v₀⟩ := hd
    simp only [List.map_cons, List.nodup_cons] at hnd
    have step : jsSpread a ((k₀, v₀) :: tl) = jsSpread (objSet a k₀ v₀) tl := rfl
    rw [step, ih _ k hnd.2, objLookup_objSet]
    by_cases h : k = k₀
    · subst h
      simp [objLookup, objLookup_eq_none tl k hnd.1]
    · simp [objLookup, Ne.symm h, h]

theorem map_fst_jsSpread {κ β : Type} [DecidableEq κ] (b : List (κ × β)) :
    ∀ (a : List (κ × β)), (∀ k ∈ b.map Prod.fst, k ∉ a.map Prod.fst) →
      (b.map Prod.fst).Nodup →
      (jsSpread a b).map Prod.fst = a.map Prod.fst ++ b.map Prod.fst := by
  induction b with
  | nil => intro a _ _; simp [jsSpread]
  | cons hd tl ih =>
    intro a hdisj hnd
    obtain ⟨k₀, v₀⟩ := hd
    simp only [List.map_cons, List.nodup_cons] at hnd
    have step : jsSpread a ((k₀, v₀) :: tl) = jsSpread (objSet a k₀ v₀) tl := rfl
    have hset : objSet a k₀ v₀ = a ++ [(k₀, v₀)] :=
      objSet_of_notMem a k₀ v₀ (hdisj k₀ (by simp))
    rw [step, hset, ih (a ++ [(k₀, v₀)]) ?_ hnd.2]
    · simp
    · intro k hk
      simp only [List.map_append, List.map_cons, List.map_nil, List.mem_append,
        List.mem_singleton, not_or]
      exact ⟨hdisj k (by simp [hk]), fun hh => hnd.1 (hh ▸ hk)⟩

/-! ### Claim C1: the shape of the merged config set -/

/-- C1, counterexample: with one language config present, the merged
result still exposes the top-level `base` key next to the language key,
so the claimed "no separate top-level base key alongside the language
keys" is false on the code. -/
theorem claim_c1_counterexample :
    (mergeConfigs (Configs.mk [("a", JsVal.n 1)] [("en", [("b", JsVal.n 2)])])).map
        Prod.fst = ["base", "en"] ∧
    objLookup (mergeConfigs (Configs.mk [("a", JsVal.n 1)] [("en", [("b", JsVal.n 2)])]))
        "base" = some [("a", JsVal.n 1)] := ⟨rfl, rfl⟩

/-- C1 (amended): when no language configs exist the merged result is
the single-key object exposing only the base config; otherwise it
exposes the `base` key followed by exactly one key per language code,
each language key holding the merged (spread) config. -/
theorem claim_c1_merged_shape (configs : Configs)
    (hnd : (configs.langs.map Prod.fst).Nodup)
    (hb : "base" ∉ configs.langs.map Prod.fst) :
    (configs.langs = [] → mergeConfigs configs = [("base", configs.base)]) ∧
    (configs.langs ≠ [] →
      objLookup (mergeConfigs configs) "base" = some configs.base ∧
      (∀ lc ∈ configs.langs,
        objLookup (mergeConfigs configs) lc.1 = some (jsSpread configs.base lc.2)) ∧
      (mergeConfigs configs).map Prod.fst = "base" :: configs.langs.map Prod.fst) := by
  obtain ⟨base, langs⟩ := configs
  constructor
  · intro h; subst h; rfl
  · intro hne
    have hfold : mergeConfigs (Configs.mk base langs) =
        jsSpread [("base", base)]
          (langs.map (fun lc => (lc.1, jsSpread base lc.2))) := by
      unfold mergeConfigs jsSpread
      rw [List.foldl_map]
      cases langs with
      | nil => exact absurd rfl hne
      | cons hd tl => rfl
    have hkeys : (langs.map (fun lc => (lc.1, jsSpread base lc.2))).map Prod.fst =
        langs.map Prod.fst := by
      rw [List.map_map]; rfl
    refine ⟨?_, ?_, ?_⟩
    · rw [hfold, objLookup_jsSpread _ _ _ (hkeys ▸ hnd),
        objLookup_eq_none _ _ (hkeys ▸ hb)]
      rfl
    · intro lc hlc
      rw [hfold, objLookup_jsSpread _ _ _ (hkeys ▸ hnd)]
      have hmem : (lc.1, jsSpread base lc.2) ∈
          langs.map (fun lc => (lc.1, jsSpread base lc.2)) :=
        List.mem_map.mpr ⟨lc, hlc, rfl⟩
      rw [objLookup_of_mem _ _ _ hmem (hkeys ▸ hnd)]
      rfl
    · rw [hfold, map_fst_jsSpread _ _ ?_ (hkeys ▸ hnd), hkeys]
      · rfl
      · intro k hk
        rw [hkeys] at hk
        simp only [List.map_cons, List.map_nil, List.mem_singleton]
        intro hh
        exact hb (hh ▸ hk)

/-- Witness for C1: the amended shape at a concrete config set with one
language. -/
theorem claim_c1_witness :
    ((["en"] : List String).Nodup ∧ "base" ∉ ["en"]) ∧
    (objLookup (mergeConfigs (Configs.mk [("a", JsVal.n 1)] [("en", [("b", JsVal.n 2)])]))
        "base" = some [("a", JsVal.n 1)]) := by
  have h := claim_c1_merged_shape
    (Configs.mk [("a", JsVal.n 1)] [("en", [("b", JsVal.n 2)])])
    (by simp) (by simp)
  exact ⟨⟨by simp, by simp⟩, (h.2 (by simp)).1⟩

/-! ### Claim C2: the per-language merge is right biased and shallow -/

/-- C2, counterexample: merging base `{a: {x: 1}}` with language
override `{a: {y: 2}}` replaces the nested map wholesale — the claimed
recursive key-by-key merge would have kept the nested key `x`. -/
theorem claim_c2_counterexample :
    objLookup (jsSpread [("a", JsVal.obj [("x", JsVal.n 1)])]
        [("a", JsVal.obj [("y", JsVal.n 2)])]) "a" =
      some (JsVal.obj [("y", JsVal.n 2)]) ∧
    JsVal.obj [("y", JsVal.n 2)] ≠ JsVal.obj [("x", JsVal.n 1), ("y", JsVal.n 2)] :=
  ⟨rfl, by simp⟩

/-- C2 (amended): the config merge is right biased — on any key
collision the language value wins — but it is shallow: the language
side's entire value (nested map or array alike) replaces the base's
value wholesale, and base keys absent from the language config are kept. -/
theorem claim_c2_merge_right_biased (base lang : Obj) (k : String)
    (hnd : (lang.map Prod.fst).Nodup) :
    objLookup (jsSpread base lang) k = (objLookup lang k).or (objLookup base k) :=
  objLookup_jsSpread lang base k hnd

/-- Witness for C2: the right-biased shallow merge at the spec's §8
example, base `{a: 1, b: 2}` with override `{b: 3}`. -/
theorem claim_c2_witness :
    ((["b"] : List String).Nodup) ∧
    objLookup (jsSpread [("a", JsVal.n 1), ("b", JsVal.n 2)] [("b", JsVal.n 3)]) "b" =
      (objLookup [("b", JsVal.n 3)] "b").or
        (objLookup [("a", JsVal.n 1), ("b", JsVal.n 2)] "b") :=
  ⟨by simp, claim_c2_merge_right_biased
    [("a", JsVal.n 1), ("b", JsVal.n 2)] [("b", JsVal.n 3)] "b" (by simp)⟩

/-! ### Lemmas on `splitFirst` and `jsSplit` -/

theorem splitFirst_eq_none (sep : List Char) :
    ∀ str : List Char, ¬ sep <:+: str → splitFirst sep str = none := by
  intro str
  induction str with
  | nil =>
    intro h
    have h1 : ¬ sep <+: ([] : List Char) := fun hp => h ( List.IsPrefix.isInfix hp)
    simp [splitFirst, h1]
  | cons c rest ih =>
    intro h
    have h1 : ¬ sep <+: c :: rest := fun hp => h ( List.IsPrefix.isInfix hp)
    have h2 : ¬ sep <:+: rest := fun hin => h (List.infix_cons hin)
    simp [splitFirst, h1, ih h2]

theorem splitFirst_of_pre (sep str : List Char) (h : sep <+: str) :
    splitFirst sep str = some ([], str.drop sep.length) := by
  cases str with
  | nil =>
    have : sep = [] := List.prefix_nil.mp h
    subst this
    simp [splitFirst]
  | cons c rest => simp [splitFirst, h]

theorem pre_imp_infix_dropLast (sep L bs : List Char) (hp : sep <+: L ++ bs)
    (hlen : sep.length ≤ L.length - 1) : sep <:+: L.dropLast := by
  have heq : sep = (L ++ bs).take sep.length := List.prefix_iff_eq_take.mp hp
  have htake : (L ++ bs).take sep.length = L.take sep.length :=
    List.take_append_of_le_length (le_trans hlen (Nat.sub_le _ _))
  have hpre : L.take sep.length <+: L.take (L.length - 1) :=
    List.take_prefix_take_left _ hlen
  rw [List.dropLast_eq_take, heq, htake]
  exact List.IsPrefix.isInfix hpre

theorem splitFirst_append (sep bs : List Char) :
    ∀ a : List Char, ¬ sep <:+: (a ++ sep).dropLast →
      splitFirst sep (a ++ sep ++ bs) = some (a, bs) := by
  intro a
  induction a with
  | nil =>
    intro _
    have h1 : splitFirst sep (sep ++ bs) = some ([], (sep ++ bs).drop sep.length) :=
      splitFirst_of_pre sep (sep ++ bs) (List.prefix_append sep bs)
    rw [List.drop_left] at h1
    exact h1
  | cons c a' ih =>
    intro h
    have hsep : sep ≠ [] := by
      rintro rfl
      exact h List.nil_infix
    have hne : a' ++ sep ≠ [] := by
      intro hh
      exact hsep (List.append_eq_nil.mp hh).2
    have hdl : ((c :: a') ++ sep).dropLast = c :: (a' ++ sep).dropLast := by
      show (c :: (a' ++ sep)).dropLast = c :: (a' ++ sep).dropLast
      exact List.dropLast_cons_of_ne_nil hne
    have hnp : ¬ sep <+: c :: (a' ++ sep ++ bs) := by
      intro hp
      apply h
      have hp' : sep <+: ((c :: a') ++ sep) ++ bs := hp
      exact pre_imp_infix_dropLast sep ((c :: a') ++ sep) bs hp'
        (by simp only [List.length_append, List.length_cons]; omega)
    have hih : ¬ sep <:+: (a' ++ sep).dropLast := by
      intro hin
      apply h
      rw [hdl]
      exact List.infix_cons hin
    show splitFirst sep (c :: (a' ++ sep ++ bs)) = some (c :: a', bs)
    simp only [splitFirst, if_neg hnp, ih hih]
    rfl

theorem jsSplit_of_single (sep a bs : List Char) (hsep : sep ≠ [])
    (h1 : ¬ sep <:+: (a ++ sep).dropLast) (h2 : ¬ sep <:+: bs) :
    jsSplit sep (a ++ sep ++ bs) = [a, bs] := by
  unfold jsSplit
  rw [if_neg hsep]
  show jsSplitAux sep ((a ++ sep ++ bs).length + 1) (a ++ sep ++ bs) = [a, bs]
  simp only [jsSplitAux, splitFirst_append sep bs a h1]
  have hpos : (a ++ sep ++ bs).length = ((a ++ sep ++ bs).length - 1) + 1 := by
    have : 0 < sep.length := List.length_pos.mpr hsep
    simp only [List.length_append]
    omega
  rw [hpos]
  simp only [jsSplitAux, splitFirst_eq_none sep bs h2]

theorem jsSplit_of_absent (sep str : List Char) (hsep : sep ≠ [])
    (h : ¬ sep <:+: str) : jsSplit sep str = [str] := by
  unfold jsSplit
  rw [if_neg hsep]
  show jsSplitAux sep (str.length + 1) str = [str]
  simp only [jsSplitAux, splitFirst_eq_none sep str h]

/-! ### Field lookups through `parseCustomFields` and the literal object -/

theorem map_fst_objSet {κ β : Type} [DecidableEq κ] (o : List (κ × β)) (k : κ) (v : β) :
    (objSet o k v).map Prod.fst =
      if k ∈ o.map Prod.fst then o.map Prod.fst else o.map Prod.fst ++ [k] := by
  induction o with
  | nil => simp [objSet]
  | cons hd tl ih =>
    obtain ⟨a, w⟩ := hd
    by_cases h1 : a = k
    · subst h1; simp [objSet]
    · by_cases h2 : k ∈ tl.map Prod.fst
      · simp [objSet, h1, Ne.symm h1, h2, ih]
      · simp [objSet, h1, Ne.symm h1, h2, ih]

theorem nodup_objSet {κ β : Type} [DecidableEq κ] (o : List (κ × β)) (k : κ) (v : β)
    (h : (o.map Prod.fst).Nodup) : ((objSet o k v).map Prod.fst).Nodup := by
  rw [map_fst_objSet]
  by_cases hk : k ∈ o.map Prod.fst
  · simpa [hk] using h
  · rw [if_neg hk]
    refine List.Nodup.append h (List.nodup_singleton k) ?_
    intro x hx hxk
    rw [List.mem_singleton.mp hxk] at hx
    exact hk hx

theorem foldl_objSet_nodup {κ β δ : Type} [DecidableEq κ] (key : δ → κ) (f : δ → β) :
    ∀ (l : List δ) (o : List (κ × β)), (o.map Prod.fst).Nodup →
      (((l.foldl (fun acc x => objSet acc (key x) (f x)) o)).map Prod.fst).Nodup := by
  intro l
  induction l with
  | nil => intro o h; exact h
  | cons x rest ih =>
    intro o h
    exact ih _ (nodup_objSet o (key x) (f x) h)

theorem mem_foldl_objSet {κ β δ : Type} [DecidableEq κ] (key : δ → κ) (f : δ → β) :
    ∀ (l : List δ) (o : List (κ × β)) (k : κ),
      k ∈ ((l.foldl (fun acc x => objSet acc (key x) (f x)) o)).map Prod.fst →
      k ∈ o.map Prod.fst ∨ k ∈ l.map key := by
  intro l
  induction l with
  | nil => intro o k h; exact Or.inl h
  | cons x rest ih =>
    intro o k h
    rcases ih _ k h with h1 | h2
    · rw [map_fst_objSet] at h1
      by_cases hk : key x ∈ o.map Prod.fst
      · rw [if_pos hk] at h1; exact Or.inl h1
      · rw [if_neg hk] at h1
        rcases List.mem_append.mp h1 with h3 | h3
        · exact Or.inl h3
        · right; simp [List.mem_singleton.mp h3]
    · right; simp [h2]

theorem getField_parseCustomFields (attributes : Obj)
    (fieldParsers : List (String × (JsVal → Obj → JsVal))) (name : String)
    (h : name ∉ fieldParsers.map Prod.fst) :
    getField (parseCustomFields attributes fieldParsers) name =
      getField attributes name := by
  have hnd : ((List.foldl
      (fun acc np => objSet acc np.1 (np.2 (getField attributes np.1) attributes))
        [] fieldParsers).map Prod.fst).Nodup :=
    foldl_objSet_nodup (fun np => np.1)
      (fun np => np.2 (getField attributes np.1) attributes) fieldParsers [] (by simp)
  have hnone : objLookup (List.foldl
      (fun acc np => objSet acc np.1 (np.2 (getField attributes np.1) attributes))
        [] fieldParsers) name = none := by
    apply objLookup_eq_none
    intro hmem
    rcases mem_foldl_objSet (fun np => np.1)
        (fun np => np.2 (getField attributes np.1) attributes) fieldParsers [] name
        hmem with h1 | h2
    · simp at h1
    · exact h h2
  show (objLookup (jsSpread attributes (List.foldl
      (fun acc np => objSet acc np.1 (np.2 (getField attributes np.1) attributes))
        [] fieldParsers)) name).getD JsVal.undef = getField attributes name
  rw [objLookup_jsSpread _ _ _ hnd, hnone]
  rfl

theorem getField_extended (attributes : Obj) (v1 v2 v3 v4 v5 : JsVal) :
    getField (objSet (objSet (objSet (objSet (objSet attributes "sourcePath" v1)
        "content" v2) "excerpt" v3) "more" v4) "url" v5) "excerpt" = v3 ∧
    getField (objSet (objSet (objSet (objSet (objSet attributes "sourcePath" v1)
        "content" v2) "excerpt" v3) "more" v4) "url" v5) "more" = v4 ∧
    getField (objSet (objSet (objSet (objSet (objSet attributes "sourcePath" v1)
        "content" v2) "excerpt" v3) "more" v4) "url" v5) "content" = v2 := by
  refine ⟨?_, ?_, ?_⟩ <;> simp [getField, objLookup_objSet]

/-! ### Claim C3: the excerpt/more split on the cut marker -/

/-- C3, counterexample: with a cut marker configured but absent from the
body, `excerpt` is not left unset — it holds the full trimmed body
(`content.split(cutTag)` returns the whole string as its first piece). -/
theorem claim_c3_counterexample :
    getField (parsePage (fun srcText => ([], srcText)) "hello".data "p.md".data
        ⟨[], [], some "<!--cut-->".data⟩) "excerpt" = JsVal.s "hello".data ∧
    JsVal.s "hello".data ≠ JsVal.undef := ⟨rfl, by simp⟩

/-- C3 (amended): with no cut marker configured `excerpt` and `more` are
unset and `content` holds the full trimmed body; with a (non-empty)
marker present in the rendered body, `excerpt` is the trimmed text
before its first occurrence and `more` the trimmed text after it (up to
the next occurrence; stated here for a body in which the marker occurs
exactly once); with a marker configured but not found, `more` is unset
but `excerpt` holds the full trimmed body. -/
theorem claim_c3_excerpt_cut (fastmatter : List Char → Obj × List Char)
    (source filepath : List Char) (renderers : List (List Char × ContentRenderer))
    (fieldParsers : List (String × (JsVal → Obj → JsVal)))
    (hex : "excerpt" ∉ fieldParsers.map Prod.fst)
    (hmore : "more" ∉ fieldParsers.map Prod.fst)
    (hcont : "content" ∉ fieldParsers.map Prod.fst) :
    (getField (parsePage fastmatter source filepath ⟨renderers, fieldParsers, none⟩)
        "excerpt" = JsVal.undef ∧
     getField (parsePage fastmatter source filepath ⟨renderers, fieldParsers, none⟩)
        "more" = JsVal.undef ∧
     getField (parsePage fastmatter source filepath ⟨renderers, fieldParsers, none⟩)
        "content" =
       JsVal.s (jsAndTrim (renderByType (fastmatter source).2 filepath renderers))) ∧
    (∀ tag a bs, tag ≠ [] →
      renderByType (fastmatter source).2 filepath renderers = a ++ tag ++ bs →
      ¬ tag <:+: (a ++ tag).dropLast → ¬ tag <:+: bs →
      getField (parsePage fastmatter source filepath ⟨renderers, fieldParsers, some tag⟩)
          "excerpt" = JsVal.s (jsAndTrim a) ∧
      getField (parsePage fastmatter source filepath ⟨renderers, fieldParsers, some tag⟩)
          "more" = JsVal.s (jsAndTrim bs)) ∧
    (∀ tag, tag ≠ [] →
      ¬ tag <:+: renderByType (fastmatter source).2 filepath renderers →
      getField (parsePage fastmatter source filepath ⟨renderers, fieldParsers, some tag⟩)
          "excerpt" =
        JsVal.s (jsAndTrim (renderByType (fastmatter source).2 filepath renderers)) ∧
      getField (parsePage fastmatter source filepath ⟨renderers, fieldParsers, some tag⟩)
          "more" = JsVal.undef) := by
  refine ⟨?_, ?_, ?_⟩
  · simp only [parsePage]
    rw [getField_parseCustomFields _ _ _ hex, getField_parseCustomFields _ _ _ hmore,
      getField_parseCustomFields _ _ _ hcont]
    exact ⟨(getField_extended _ _ _ _ _ _).1, (getField_extended _ _ _ _ _ _).2.1,
      (getField_extended _ _ _ _ _ _).2.2⟩
  · intro tag a bs htag hsplitEq hleft hright
    simp only [parsePage]
    rw [getField_parseCustomFields _ _ _ hex, getField_parseCustomFields _ _ _ hmore]
    simp only [if_neg htag, hsplitEq, jsSplit_of_single tag a bs htag hleft hright]
    exact ⟨(getField_extended _ _ _ _ _ _).1, (getField_extended _ _ _ _ _ _).2.1⟩
  · intro tag htag habsent
    simp only [parsePage]
    rw [getField_parseCustomFields _ _ _ hex, getField_parseCustomFields _ _ _ hmore]
    simp only [if_neg htag, jsSplit_of_absent tag _ htag habsent]
    exact ⟨(getField_extended _ _ _ _ _ _).1, (getField_extended _ _ _ _ _ _).2.1⟩

/-- Witness for C3: the amended split behaviour at a concrete page whose
body `"a X b"` holds the marker `"X"` exactly once. -/
theorem claim_c3_witness :
    ("excerpt" ∉ ([] : List (String × (JsVal → Obj → JsVal))).map Prod.fst) ∧
    ("X".data ≠ [] ∧
      renderByType "a X b".data "p.md".data [] = "a ".data ++ "X".data ++ " b".data) ∧
    getField (parsePage (fun srcText => ([], srcText)) "a X b".data "p.md".data
        ⟨[], [], some "X".data⟩) "excerpt" = JsVal.s (jsAndTrim "a ".data) ∧
    getField (parsePage (fun srcText => ([], srcText)) "a X b".data "p.md".data
        ⟨[], [], some "X".data⟩) "more" = JsVal.s (jsAndTrim " b".data) := by
  have h := claim_c3_excerpt_cut (fun srcText => ([], srcText)) "a X b".data
    "p.md".data [] [] (by simp) (by simp) (by simp)
  exact ⟨by simp, ⟨by decide, by decide⟩,
    h.2.1 "X".data "a ".data " b".data (by decide) (by decide) (by decide) (by decide)⟩

/-! ### Double slashes: adjacency reasoning for claim C4 -/

/-- Two adjacent characters that are not both `/`. -/
def slashOk (c d : Char) : Prop := ¬ (c = '/' ∧ d = '/')

theorem not_chain_to_within (str : List Char) :
    ¬ List.Chain' slashOk str → ['/', '/'] <:+: str := by
  induction str with
  | nil => intro h; exact absurd List.chain'_nil h
  | cons c rest ih =>
    intro h
    cases rest with
    | nil => exact absurd (List.chain'_singleton c) h
    | cons d t =>
      rw [List.chain'_cons] at h
      rcases not_and_or.mp h with h1 | h2
      · obtain ⟨hc, hd⟩ := not_not.mp h1
        subst hc; subst hd
        exact ⟨[], t, rfl⟩
      · exact List.infix_cons (ih h2)

theorem chain_iff_no_double (str : List Char) :
    List.Chain' slashOk str ↔ ¬ ['/', '/'] <:+: str := by
  constructor
  · intro hc hin
    have hsub := List.Chain'.infix hc hin
    rw [List.chain'_cons] at hsub
    exact hsub.1 ⟨rfl, rfl⟩
  · intro hni
    by_contra hnc
    exact hni (not_chain_to_within str hnc)

theorem chain_of_no_slash (str : List Char) (h : ∀ c ∈ str, c ≠ '/') :
    List.Chain' slashOk str := by
  induction str with
  | nil => exact List.chain'_nil
  | cons c rest ih =>
    cases rest with
    | nil => exact List.chain'_singleton c
    | cons d t =>
      rw [List.chain'_cons]
      refine ⟨fun hcd => h c (by simp) hcd.1, ih ?_⟩
      intro x hx
      exact h x (List.mem_cons_of_mem c hx)

theorem natToCharsAux_mem (fuel : Nat) :
    ∀ (m : Nat) (acc : List Char) (c : Char), c ∈ natToCharsAux fuel m acc →
      c ∈ acc ∨ ∃ d, d < 10 ∧ c = Nat.digitChar d := by
  induction fuel with
  | zero => intro m acc c hc; exact Or.inl hc
  | succ fuel ih =>
    intro m acc c hc
    simp only [natToCharsAux] at hc
    by_cases hm : m < 10
    · rw [if_pos hm] at hc
      rcases List.mem_cons.mp hc with h1 | h2
      · exact Or.inr ⟨m % 10, Nat.mod_lt _ (by omega), h1⟩
      · exact Or.inl h2
    · rw [if_neg hm] at hc
      rcases ih (m / 10) _ c hc with h1 | h2
      · rcases List.mem_cons.mp h1 with h3 | h4
        · exact Or.inr ⟨m % 10, Nat.mod_lt _ (by omega), h3⟩
        · exact Or.inl h4
      · exact Or.inr h2

theorem digitChar_ne_slash : ∀ d, d < 10 → Nat.digitChar d ≠ '/' := by decide

theorem natToChars_no_slash (m : Nat) : ∀ c ∈ natToChars m, c ≠ '/' := by
  intro c hc
  rcases natToCharsAux_mem (m + 1) m [] c hc with h1 | h2
  · cases h1
  · obtain ⟨d, hd, rfl⟩ := h2
    exact digitChar_ne_slash d hd

theorem jsReplaceFirst_of_none (pat rep str : List Char)
    (h : splitFirst pat str = none) : jsReplaceFirst pat rep str = str := by
  unfold jsReplaceFirst
  rw [h]

theorem jsReplaceFirst_of_split (pat rep str a bs : List Char)
    (h : splitFirst pat str = some (a, bs)) :
    jsReplaceFirst pat rep str = a ++ rep ++ bs := by
  unfold jsReplaceFirst
  rw [h]

theorem replace_keeps_clean (p rest : List Char)
    (hp : ¬ ['/', '/'] <:+: p)
    (hrest : List.Chain' slashOk ('/' :: rest))
    (hhead : ∀ x ∈ rest.head?, x ≠ '/') :
    ¬ ['/', '/'] <:+: jsReplaceFirst "//".data "/".data (p ++ '/' :: rest) := by
  have hcp : List.Chain' slashOk p := (chain_iff_no_double p).mpr hp
  rcases List.eq_nil_or_concat p with rfl | ⟨q, a, hqa⟩
  · have hclean : ¬ ['/', '/'] <:+: ([] : List Char) ++ '/' :: rest := by
      rw [List.nil_append]
      exact (chain_iff_no_double _).mp hrest
    rw [jsReplaceFirst_of_none _ _ _ (splitFirst_eq_none _ _ hclean)]
    exact hclean
  · rw [List.concat_eq_append] at hqa
    subst hqa
    by_cases ha : a = '/'
    · subst ha
      have hS : (q ++ ['/']) ++ '/' :: rest = q ++ "//".data ++ rest := by simp
      have hdl : (q ++ "//".data).dropLast = q ++ ['/'] := by
        have h2 : q ++ "//".data = (q ++ ['/']) ++ ['/'] := by simp
        rw [h2, List.dropLast_concat]
      have hsF : splitFirst "//".data (q ++ "//".data ++ rest) = some (q, rest) := by
        apply splitFirst_append
        rw [hdl]
        exact hp
      rw [hS, jsReplaceFirst_of_split _ _ _ _ _ hsF]
      rw [← chain_iff_no_double]
      have hform : q ++ "/".data ++ rest = (q ++ ['/']) ++ rest := by simp
      rw [hform, List.chain'_append]
      refine ⟨hcp, ?_, ?_⟩
      · cases rest with
        | nil => exact List.chain'_nil
        | cons r t => exact (List.chain'_cons.mp hrest).2
      · intro x hx y hy
        rw [List.getLast?_concat] at hx
        have hxl : x = '/' := (Option.mem_some_iff.mp hx).symm
        subst hxl
        intro hcon
        cases rest with
        | nil => simp at hy
        | cons r t =>
          simp only [List.head?_cons, Option.mem_some_iff] at hy
          exact hhead r (by simp) (hy ▸ hcon.2)
    · have hclean : List.Chain' slashOk ((q ++ [a]) ++ '/' :: rest) := by
        rw [List.chain'_append]
        refine ⟨hcp, hrest, ?_⟩
        intro x hx y hy
        rw [List.getLast?_concat] at hx
        have hxa : x = a := (Option.mem_some_iff.mp hx).symm
        rw [List.head?_cons] at hy
        have hys : y = '/' := (Option.mem_some_iff.mp hy).symm
        subst hxa; subst hys
        exact fun hcon => ha hcon.1
      have hni : ¬ ['/', '/'] <:+: (q ++ [a]) ++ '/' :: rest :=
        (chain_iff_no_double _).mp hclean
      rw [jsReplaceFirst_of_none _ _ _ (splitFirst_eq_none _ _ hni)]
      exact hni

/-! ### Claim C4: double slashes in pagination paths and URLs -/

/-- C4, counterexample: with the prefix `"//a/"` and page 2, the
non-global `replace(/\/\//, '/')` collapses the prefix's own double
slash and leaves the one introduced at the prefix/suffix junction, so
the produced URL `"/a//page/2"` still contains a double slash. -/
theorem claim_c4_counterexample :
    getPageNumberUrl "//a/".data 2 false = "/a//page/2".data ∧
    ['/', '/'] <:+: getPageNumberUrl "//a/".data 2 false := ⟨by decide, by decide⟩

/-- C4 (amended): for every prefix that itself contains no double slash,
the paths and URLs produced for any page number (with or without the
`index` option) contain no double slash — the concatenation artifact at
the prefix/suffix junction is always collapsed.  (A prefix already
containing `//` can defeat the first-occurrence-only collapsing, as the
counterexample shows.) -/
theorem claim_c4_no_double (p : List Char) (n : Nat) (idx : Bool)
    (h : ¬ ['/', '/'] <:+: p) :
    ¬ ['/', '/'] <:+: getPageNumberUrl p n idx := by
  simp only [getPageNumberUrl]
  by_cases hn : n = 1
  · rw [if_pos hn]
    by_cases hi : idx
    · rw [if_pos hi]
      show ¬ ['/', '/'] <:+: jsReplaceFirst "//".data "/".data (p ++ '/' :: "index".data)
      apply replace_keeps_clean p "index".data h
      · exact (chain_iff_no_double _).mpr (by decide)
      · intro x hx
        have hx' : x = 'i' := by
          rw [show ("index".data).head? = some 'i' from rfl] at hx
          exact (Option.mem_some_iff.mp hx).symm
        subst hx'
        decide
    · rw [if_neg hi]
      rw [jsReplaceFirst_of_none _ _ _ (splitFirst_eq_none _ _ h)]
      exact h
  · rw [if_neg hn, List.append_assoc]
    show ¬ ['/', '/'] <:+:
      jsReplaceFirst "//".data "/".data (p ++ '/' :: ("page/".data ++ natToChars n))
    apply replace_keeps_clean p ("page/".data ++ natToChars n) h
    · show List.Chain' slashOk ("/page/".data ++ natToChars n)
      rw [List.chain'_append]
      refine ⟨(chain_iff_no_double _).mpr (by decide),
        chain_of_no_slash _ (natToChars_no_slash n), ?_⟩
      intro x hx y hy
      have hx' : x = '/' := by
        rw [show ("/page/".data).getLast? = some '/' from rfl] at hx
        exact (Option.mem_some_iff.mp hx).symm
      subst hx'
      intro hcon
      exact natToChars_no_slash n y (List.mem_of_mem_head? hy) hcon.2
    · intro x hx
      have hx' : x = 'p' := by
        rw [show ("page/".data ++ natToChars n).head? = some 'p' from rfl] at hx
        exact (Option.mem_some_iff.mp hx).symm
      subst hx'
      decide

/-- Witness for C4: a clean prefix produces a clean URL for page 2. -/
theorem claim_c4_witness :
    (¬ ['/', '/'] <:+: "/blog/".data) ∧
    ¬ ['/', '/'] <:+: getPageNumberUrl "/blog/".data 2 false :=
  ⟨by decide, claim_c4_no_double "/blog/".data 2 false (by decide)⟩

/-! ### Grouping lemmas for claim C5 -/

theorem groupGet_pushGroup (grouped : List (List Char × List Doc))
    (key k : List Char) (document : Doc) :
    groupGet (pushGroup grouped key document) k =
      if k = key then groupGet grouped key ++ [document] else groupGet grouped k := by
  unfold pushGroup groupGet
  rw [objLookup_objSet]
  by_cases h : k = key
  · simp [h]
  · simp [h]

theorem mem_groupGet_push_mono (grouped : List (List Char × List Doc))
    (key k : List Char) (d document : Doc)
    (h : d ∈ groupGet grouped k) :
    d ∈ groupGet (pushGroup grouped key document) k := by
  rw [groupGet_pushGroup]
  by_cases hk : k = key
  · subst hk
    rw [if_pos rfl]
    exact List.mem_append.mpr (Or.inl h)
  · rwa [if_neg hk]

theorem mem_groupGet_arrFold_mono (document : Doc) (k : List Char) (d : Doc) :
    ∀ (xs : List JsVal) (grouped : List (List Char × List Doc)),
      d ∈ groupGet grouped k →
      d ∈ groupGet (xs.foldl
        (fun g subValue => pushGroup g (jsToKey subValue) document) grouped) k := by
  intro xs
  induction xs with
  | nil => intro grouped h; exact h
  | cons v rest ih =>
    intro grouped h
    exact ih _ (mem_groupGet_push_mono grouped (jsToKey v) k d document h)

theorem mem_groupGet_step_mono (field : GroupField)
    (grouped : List (List Char × List Doc)) (document d : Doc) (k : List Char)
    (h : d ∈ groupGet grouped k) :
    d ∈ groupGet (groupStep field grouped document) k := by
  simp only [groupStep]
  split
  · exact mem_groupGet_arrFold_mono document k d _ grouped h
  · split
    · exact mem_groupGet_push_mono _ _ _ _ _ h
    · exact h

theorem mem_groupGet_foldl_mono (field : GroupField) (d : Doc) (k : List Char) :
    ∀ (l : List Doc) (grouped : List (List Char × List Doc)),
      d ∈ groupGet grouped k →
      d ∈ groupGet (l.foldl (groupStep field) grouped) k := by
  intro l
  induction l with
  | nil => intro grouped h; exact h
  | cons e rest ih =>
    intro grouped h
    exact ih _ (mem_groupGet_step_mono field grouped e d k h)

theorem mem_groupGet_arrFold_adds (document : Doc) (v : JsVal) :
    ∀ (xs : List JsVal) (grouped : List (List Char × List Doc)), v ∈ xs →
      document ∈ groupGet (xs.foldl
        (fun g subValue => pushGroup g (jsToKey subValue) document) grouped)
        (jsToKey v) := by
  intro xs
  induction xs with
  | nil => intro g hv; cases hv
  | cons u rest ih =>
    intro g hv
    rcases List.mem_cons.mp hv with rfl | hmem
    · show document ∈ groupGet (rest.foldl
        (fun g' subValue => pushGroup g' (jsToKey subValue) document)
        (pushGroup g (jsToKey v) document)) (jsToKey v)
      apply mem_groupGet_arrFold_mono document (jsToKey v) document rest
      rw [groupGet_pushGroup, if_pos rfl]
      exact List.mem_append.mpr (Or.inr (by simp))
    · exact ih _ hmem

theorem mem_groupGet_step_arr (f : String)
    (grouped : List (List Char × List Doc)) (document : Doc) (xs : List JsVal)
    (v : JsVal) (hv : getField document f = JsVal.arr xs) (hmem : v ∈ xs) :
    document ∈ groupGet (groupStep (GroupField.fieldName f) grouped document)
      (jsToKey v) := by
  simp only [groupStep, hv]
  exact mem_groupGet_arrFold_adds document v xs grouped hmem

theorem mem_groupGet_step_fn (gf : Doc → JsVal)
    (grouped : List (List Char × List Doc)) (document : Doc)
    (ht : jsTruthy (gf document) = true) :
    document ∈ groupGet (groupStep (GroupField.fieldFn gf) grouped document)
      (jsToKey (gf document)) := by
  simp only [groupStep]
  rw [if_pos ht, groupGet_pushGroup, if_pos rfl]
  exact List.mem_append.mpr (Or.inr (by simp))

theorem mem_groupGet_arrFold_cases (document d : Doc) (k : List Char) :
    ∀ (xs : List JsVal) (grouped : List (List Char × List Doc)),
      d ∈ groupGet (xs.foldl
        (fun g subValue => pushGroup g (jsToKey subValue) document) grouped) k →
      d ∈ groupGet grouped k ∨ d = document := by
  intro xs
  induction xs with
  | nil => intro g h; exact Or.inl h
  | cons u rest ih =>
    intro g h
    rcases ih (pushGroup g (jsToKey u) document) h with h1 | h2
    · rw [groupGet_pushGroup] at h1
      by_cases hk : k = jsToKey u
      · subst hk
        rw [if_pos rfl] at h1
        rcases List.mem_append.mp h1 with h3 | h4
        · exact Or.inl h3
        · exact Or.inr (List.mem_singleton.mp h4)
      · rw [if_neg hk] at h1
        exact Or.inl h1
    · exact Or.inr h2

theorem mem_groupGet_step_cases (field : GroupField)
    (grouped : List (List Char × List Doc)) (document d : Doc) (k : List Char)
    (h : d ∈ groupGet (groupStep field grouped document) k) :
    d ∈ groupGet grouped k ∨ d = document := by
  simp only [groupStep] at h
  split at h
  · exact mem_groupGet_arrFold_cases document d k _ grouped h
  · split at h
    · rw [groupGet_pushGroup] at h
      split at h
      · next heq =>
          subst heq
          rcases List.mem_append.mp h with h3 | h4
          · exact Or.inl h3
          · exact Or.inr (List.mem_singleton.mp h4)
      · exact Or.inl h
    · exact Or.inl h

theorem groupStep_of_falsy (field : GroupField)
    (grouped : List (List Char × List Doc)) (document : Doc)
    (hv : match field with
          | GroupField.fieldName f => jsTruthy (getField document f) = false
          | GroupField.fieldFn gf => jsTruthy (gf document) = false) :
    groupStep field grouped document = grouped := by
  rcases field with f | gf
  · simp only at hv
    simp only [groupStep]
    split
    · next xs heq => rw [heq] at hv; simp [jsTruthy] at hv
    · rw [if_neg (by rw [hv]; simp)]
  · simp only at hv
    simp only [groupStep]
    rw [if_neg (by rw [hv]; simp)]

theorem notMem_groupGet_foldl (field : GroupField) (d : Doc)
    (hd : ∀ g', groupStep field g' d = g') :
    ∀ (l : List Doc) (grouped : List (List Char × List Doc)) (k : List Char),
      d ∉ groupGet grouped k → d ∉ groupGet (l.foldl (groupStep field) grouped) k := by
  intro l
  induction l with
  | nil => intro g k h; exact h
  | cons e rest ih =>
    intro g k h
    by_cases he : e = d
    · show d ∉ groupGet (rest.foldl (groupStep field) (groupStep field g e)) k
      rw [he, hd g]
      exact ih _ _ h
    · apply ih
      intro hmem
      rcases mem_groupGet_step_cases field g e d k hmem with h1 | h2
      · exact h h1
      · exact he h2.symm

/-! ### Claim C5: grouping documents by a field or a function -/

/-- C5 (as stated): a document whose field value is an array is placed
under every element of that array; a function field computes the group
key per document; a document whose computed or field value is falsy is
excluded from every group. -/
theorem claim_c5_grouping :
    (∀ (documents : List Doc) (f : String) (document : Doc) (xs : List JsVal)
        (v : JsVal), document ∈ documents → getField document f = JsVal.arr xs →
      v ∈ xs →
      document ∈ groupGet (groupDocuments documents (GroupField.fieldName f))
        (jsToKey v)) ∧
    (∀ (documents : List Doc) (gf : Doc → JsVal) (document : Doc),
      document ∈ documents → jsTruthy (gf document) = true →
      document ∈ groupGet (groupDocuments documents (GroupField.fieldFn gf))
        (jsToKey (gf document))) ∧
    (∀ (documents : List Doc) (f : String) (document : Doc) (k : List Char),
      jsTruthy (getField document f) = false →
      document ∉ groupGet (groupDocuments documents (GroupField.fieldName f)) k) ∧
    (∀ (documents : List Doc) (gf : Doc → JsVal) (document : Doc) (k : List Char),
      jsTruthy (gf document) = false →
      document ∉ groupGet (groupDocuments documents (GroupField.fieldFn gf)) k) := by
  refine ⟨?_, ?_, ?_, ?_⟩
  · intro documents f document xs v hmem hv hvx
    obtain ⟨l1, l2, rfl⟩ := List.append_of_mem hmem
    unfold groupDocuments
    rw [List.foldl_append]
    show document ∈ groupGet (List.foldl (groupStep (GroupField.fieldName f))
      (groupStep (GroupField.fieldName f)
        (List.foldl (groupStep (GroupField.fieldName f)) [] l1) document) l2)
      (jsToKey v)
    apply mem_groupGet_foldl_mono
    exact mem_groupGet_step_arr f _ document xs v hv hvx
  · intro documents gf document hmem ht
    obtain ⟨l1, l2, rfl⟩ := List.append_of_mem hmem
    unfold groupDocuments
    rw [List.foldl_append]
    show document ∈ groupGet (List.foldl (groupStep (GroupField.fieldFn gf))
      (groupStep (GroupField.fieldFn gf)
        (List.foldl (groupStep (GroupField.fieldFn gf)) [] l1) document) l2)
      (jsToKey (gf document))
    apply mem_groupGet_foldl_mono
    exact mem_groupGet_step_fn gf _ document ht
  · intro documents f document k hv
    have hstep : ∀ g', groupStep (GroupField.fieldName f) g' document = g' :=
      fun g' => groupStep_of_falsy (GroupField.fieldName f) g' document hv
    exact notMem_groupGet_foldl _ document hstep documents [] k
      (by simp [groupGet, objLookup])
  · intro documents gf document k hv
    have hstep : ∀ g', groupStep (GroupField.fieldFn gf) g' document = g' :=
      fun g' => groupStep_of_falsy (GroupField.fieldFn gf) g' document hv
    exact notMem_groupGet_foldl _ document hstep documents [] k
      (by simp [groupGet, objLookup])

/-- Witness for C5: one document with a two-element array field lands in
the group of the second element. -/
theorem claim_c5_witness :
    ([("tags", JsVal.arr [JsVal.s "a".data, JsVal.s "b".data])] ∈
      [[("tags", JsVal.arr [JsVal.s "a".data, JsVal.s "b".data])]] ∧
     getField [("tags", JsVal.arr [JsVal.s "a".data, JsVal.s "b".data])] "tags" =
       JsVal.arr [JsVal.s "a".data, JsVal.s "b".data] ∧
     JsVal.s "b".data ∈ [JsVal.s "a".data, JsVal.s "b".data]) ∧
    [("tags", JsVal.arr [JsVal.s "a".data, JsVal.s "b".data])] ∈
      groupGet (groupDocuments [[("tags", JsVal.arr [JsVal.s "a".data, JsVal.s "b".data])]]
        (GroupField.fieldName "tags")) (jsToKey (JsVal.s "b".data)) := by
  refine ⟨⟨by simp, rfl, by simp⟩, ?_⟩
  exact claim_c5_grouping.1 [[("tags", JsVal.arr [JsVal.s "a".data, JsVal.s "b".data])]]
    "tags" [("tags", JsVal.arr [JsVal.s "a".data, JsVal.s "b".data])]
    [JsVal.s "a".data, JsVal.s "b".data] (JsVal.s "b".data) (by simp) rfl (by simp)

/-! ### Pagination lemmas for claims C6 and C8 -/

theorem paginate_ok (α : Type) (docs : List α) (spp up lay : List Char) (d : Nat)
    (idx : Bool) (extra : Obj) (hd : 0 < d) (hlay : lay ≠ []) :
    paginate docs
        (PaginateOptions.mk (some spp) (some up) (some d) (some lay) idx extra) =
      Except.ok ((List.range ((docs.length + d - 1) / d)).map (fun pn =>
        PaginationPage.mk extra
          (if 1 < pn + 1 then some (getPageNumberUrl up (pn + 1 - 1) false) else none)
          (if pn + 1 < (docs.length + d - 1) / d then
            some (getPageNumberUrl up (pn + 1 + 1) false) else none)
          ((docs.drop ((pn + 1 - 1) * d)).take d)
          docs.length
          (getPageNumberUrl spp (pn + 1) idx)
          lay
          (getPageNumberUrl up (pn + 1) false))) := by
  simp only [paginate, Option.getD_some]
  rw [if_neg (by simp), if_neg (by simp), if_neg (by omega),
    if_neg (by simpa using hlay)]

/-! ### Claim C6: the shape of the produced pagination pages -/

/-- C6: with all required options present, `paginate` yields
`⌈count / perPage⌉` pages; page `n` (1-indexed, here index `i = n - 1`)
carries the contiguous slice `[(n-1)·perPage, n·perPage)`,
`documentsTotal` is the full input count on every page, the first page's
`previousUrl` and the last page's `nextUrl` are null, and every other
`previousUrl`/`nextUrl` is the neighbouring page's `url`; in particular
10 documents with 4 per page yield sizes `[4, 4, 2]` with the stated
boundary links. -/
theorem claim_c6_pagination :
    (∀ (α : Type) (docs : List α) (spp up lay : List Char) (d : Nat) (idx : Bool)
        (extra : Obj), 0 < d → lay ≠ [] →
      ∃ pages : List (PaginationPage α),
        paginate docs
            (PaginateOptions.mk (some spp) (some up) (some d) (some lay) idx extra) =
          Except.ok pages ∧
        pages.length = (docs.length + d - 1) / d ∧
        (∀ i, ∀ hi : i < pages.length,
          (pages.get ⟨i, hi⟩).documents = (docs.drop (i * d)).take d ∧
          (pages.get ⟨i, hi⟩).documentsTotal = docs.length) ∧
        (∀ h0 : 0 < pages.length,
          (pages.get ⟨0, h0⟩).previousUrl = none ∧
          (pages.get ⟨pages.length - 1, by omega⟩).nextUrl = none) ∧
        (∀ i, ∀ hi : i + 1 < pages.length,
          (pages.get ⟨i + 1, hi⟩).previousUrl = some ((pages.get ⟨i, by omega⟩).url) ∧
          (pages.get ⟨i, by omega⟩).nextUrl = some ((pages.get ⟨i + 1, hi⟩).url))) ∧
    ((paginate (List.range 10) (PaginateOptions.mk (some "/p".data) (some "/u".data)
        (some 4) (some "l".data) false [])).map
        (fun pages => pages.map (fun pg => pg.documents.length)) =
      Except.ok [4, 4, 2] ∧
     (paginate (List.range 10) (PaginateOptions.mk (some "/p".data) (some "/u".data)
        (some 4) (some "l".data) false [])).map
        (fun pages => pages.map (fun pg => pg.documentsTotal)) =
      Except.ok [10, 10, 10] ∧
     (paginate (List.range 10) (PaginateOptions.mk (some "/p".data) (some "/u".data)
        (some 4) (some "l".data) false [])).map
        (fun pages => pages.map (fun pg => pg.previousUrl)) =
      Except.ok [none, some "/u".data, some "/u/page/2".data] ∧
     (paginate (List.range 10) (PaginateOptions.mk (some "/p".data) (some "/u".data)
        (some 4) (some "l".data) false [])).map
        (fun pages => pages.map (fun pg => pg.nextUrl)) =
      Except.ok [some "/u/page/2".data, some "/u/page/3".data, none]) := by
  constructor
  · intro α docs spp up lay d idx extra hd hlay
    refine ⟨_, paginate_ok α docs spp up lay d idx extra hd hlay, ?_, ?_, ?_, ?_⟩
    · simp
    · intro i hi
      have hi' : i < (docs.length + d - 1) / d := by simpa using hi
      constructor
      · simp [List.get_eq_getElem]
      · simp [List.get_eq_getElem]
    · intro h0
      have hT : 0 < (docs.length + d - 1) / d := by simpa using h0
      constructor
      · simp [List.get_eq_getElem]
      · simp only [List.get_eq_getElem, List.length_map, List.length_range,
          List.getElem_map, List.getElem_range]
        rw [if_neg (by omega)]
    · intro i hi
      have hi' : i + 1 < (docs.length + d - 1) / d := by simpa using hi
      constructor
      · simp only [List.get_eq_getElem, List.length_map, List.length_range,
          List.getElem_map, List.getElem_range]
        rw [if_pos (by omega)]
        simp
      · simp only [List.get_eq_getElem, List.length_map, List.length_range,
          List.getElem_map, List.getElem_range]
        rw [if_pos (by omega)]
  · exact ⟨rfl, rfl, rfl, rfl⟩

/-- Witness for C6: the general statement applied to the spec's concrete
example, 10 documents with 4 per page. -/
theorem claim_c6_witness :
    (0 < 4 ∧ "l".data ≠ []) ∧
    (∃ pages : List (PaginationPage Nat),
      paginate (List.range 10)
          (PaginateOptions.mk (some "/p".data) (some "/u".data) (some 4)
            (some "l".data) false []) =
        Except.ok pages ∧
      pages.length = ((List.range 10).length + 4 - 1) / 4 ∧
      (∀ i, ∀ hi : i < pages.length,
        (pages.get ⟨i, hi⟩).documents = ((List.range 10).drop (i * 4)).take 4 ∧
        (pages.get ⟨i, hi⟩).documentsTotal = (List.range 10).length) ∧
      (∀ h0 : 0 < pages.length,
        (pages.get ⟨0, h0⟩).previousUrl = none ∧
        (pages.get ⟨pages.length - 1, by omega⟩).nextUrl = none) ∧
      (∀ i, ∀ hi : i + 1 < pages.length,
        (pages.get ⟨i + 1, hi⟩).previousUrl = some ((pages.get ⟨i, by omega⟩).url) ∧
        (pages.get ⟨i, by omega⟩).nextUrl = some ((pages.get ⟨i + 1, hi⟩).url))) :=
  ⟨⟨by decide, by decide⟩,
    claim_c6_pagination.1 Nat (List.range 10) "/p".data "/u".data "l".data 4 false []
      (by decide) (by decide)⟩

/-! ### Claim C7: deriving the URL from the file path -/

/-- The claim's own wording of the URL derivation, as a definition to be
compared with the embedded `filepathToUrl`: prepend `/` to the filepath
with its extension stripped, remove a trailing `/index` segment, and
fall back to the root `/` when the result is empty. -/
def filepathToUrlSpec (filepath : List Char) : List Char :=
  let stripped := ['/'] ++ removeExtension filepath
  let collapsed :=
    if "/index".data <:+ stripped then
      stripped.take (stripped.length - "/index".data.length)
    else stripped
  if collapsed = [] then ['/'] else collapsed

/-- C7: `filepathToUrl` agrees with the claim's description everywhere,
and in particular maps `"index.md"` to `"/"`, `"posts/foo/index.md"` to
`"/posts/foo"` and `"posts/foo.md"` to `"/posts/foo"`. -/
theorem claim_c7_filepath_to_url :
    (∀ filepath : List Char, filepathToUrl filepath = filepathToUrlSpec filepath) ∧
    filepathToUrl "index.md".data = "/".data ∧
    filepathToUrl "posts/foo/index.md".data = "/posts/foo".data ∧
    filepathToUrl "posts/foo.md".data = "/posts/foo".data :=
  ⟨fun _ => rfl, by decide, by decide, by decide⟩

/-! ### Claim C8: the four required pagination options -/

/-- C8: each of the four required options, when absent (`undefined`, or
JS-falsy for `documentsPerPage`/`layout`), makes `paginate` throw the
configuration error naming that option, producing no pages; no absent
option is defaulted.  The checks run in source order, so each conjunct
assumes the earlier options passed theirs. -/
theorem claim_c8_required_options :
    ∀ (α : Type) (docs : List α) (options : PaginateOptions),
      (options.sourcePathPrefix = none →
        paginate docs options =
          Except.error "\"sourcePathPrefix\" not specified for paginate().".data) ∧
      (options.sourcePathPrefix ≠ none → options.urlPrefix = none →
        paginate docs options =
          Except.error "\"urlPrefix\" not specified for paginate().".data) ∧
      (options.sourcePathPrefix ≠ none → options.urlPrefix ≠ none →
        options.documentsPerPage.getD 0 = 0 →
        paginate docs options =
          Except.error "\"documentsPerPage\" not specified for paginate().".data) ∧
      (options.sourcePathPrefix ≠ none → options.urlPrefix ≠ none →
        options.documentsPerPage.getD 0 ≠ 0 → options.layout.getD [] = [] →
        paginate docs options =
          Except.error "\"layout\" not specified for paginate().".data) := by
  intro α docs options
  refine ⟨?_, ?_, ?_, ?_⟩
  · intro h1
    unfold paginate
    rw [if_pos h1]
  · intro h1 h2
    unfold paginate
    rw [if_neg h1, if_pos h2]
  · intro h1 h2 h3
    unfold paginate
    rw [if_neg h1, if_neg h2, if_pos h3]
  · intro h1 h2 h3 h4
    unfold paginate
    rw [if_neg h1, if_neg h2, if_neg h3, if_pos h4]

/-- Witness for C8: a missing `sourcePathPrefix` is reported as such. -/
theorem claim_c8_witness :
    (PaginateOptions.mk none (some "/u".data) (some 1) (some "l".data) false
        []).sourcePathPrefix = none ∧
    paginate ([] : List Nat)
        (PaginateOptions.mk none (some "/u".data) (some 1) (some "l".data) false []) =
      Except.error "\"sourcePathPrefix\" not specified for paginate().".data :=
  ⟨rfl, (claim_c8_required_options Nat []
    (PaginateOptions.mk none (some "/u".data) (some 1) (some "l".data) false [])).1 rfl⟩

/-! ### Claim C9: required document fields at render time -/

/-- C9: a document with a falsy `sourcePath` raises the configuration
error for the source path; with a truthy `sourcePath` but falsy `layout`
it raises a configuration error whose message names that document's
source path; with both present no configuration error is raised. -/
theorem claim_c9_generate_page :
    ∀ (γ κ : Type) (renderRss : RenderContext γ κ → List Char) (document : Doc)
      (config : γ) (helpers : List (String × κ))
      (renderers : List (List Char × (List Char → RenderContext γ κ → List Char))),
      (jsTruthy (getField document "sourcePath") = false →
        generatePage renderRss document config helpers renderers =
          Except.error (PageError.configError
            "Source path not specified. Add \"sourcePath\" front matter field.".data)) ∧
      (jsTruthy (getField document "sourcePath") = true →
        jsTruthy (getField document "layout") = false →
        ∃ msg, generatePage renderRss document config helpers renderers =
            Except.error (PageError.configError msg) ∧
          jsToString (getField document "sourcePath") <:+: msg) ∧
      (jsTruthy (getField document "sourcePath") = true →
        jsTruthy (getField document "layout") = true →
        ∀ msg, generatePage renderRss document config helpers renderers ≠
          Except.error (PageError.configError msg)) := by
  intro γ κ renderRss document config helpers renderers
  refine ⟨?_, ?_, ?_⟩
  · intro h1
    unfold generatePage
    rw [if_pos h1]
  · intro h1 h2
    unfold generatePage
    rw [if_neg (by simp [h1]), if_pos h2]
    refine ⟨_, rfl, ?_⟩
    exact ⟨"Layout not specified for ".data,
      ". Add \"layout\" front matter field.".data, rfl⟩
  · intro h1 h2 msg hcontra
    unfold generatePage at hcontra
    rw [if_neg (by simp [h1]), if_neg (by simp [h2])] at hcontra
    split at hcontra
    · split at hcontra
      · simp at hcontra
      · split at hcontra
        · simp at hcontra
        · simp at hcontra
    · simp at hcontra

/-- Witness for C9: a document with `sourcePath` but no `layout` gets a
configuration error naming its source path. -/
theorem claim_c9_witness :
    (jsTruthy (getField [("sourcePath", JsVal.s "a.md".data)] "sourcePath") = true ∧
     jsTruthy (getField [("sourcePath", JsVal.s "a.md".data)] "layout") = false) ∧
    (∃ msg, generatePage (γ := Nat) (κ := Unit) (fun _ => [])
        [("sourcePath", JsVal.s "a.md".data)] 0 [] [] =
        Except.error (PageError.configError msg) ∧
      jsToString (getField [("sourcePath", JsVal.s "a.md".data)] "sourcePath")
        <:+: msg) :=
  ⟨⟨rfl, rfl⟩,
    (claim_c9_generate_page Nat Unit (fun _ => []) [("sourcePath", JsVal.s "a.md".data)]
      0 [] []).2.1 rfl rfl⟩

/-! ### Claim C10: name precedence in the render context -/

theorem objLookup_map_value {κ β β' : Type} [DecidableEq κ]
    (l : List (κ × β)) (g : β → β') (k : κ) :
    objLookup (l.map (fun kv => (kv.1, g kv.2))) k = (objLookup l k).map g := by
  induction l with
  | nil => rfl
  | cons hd tl ih =>
    obtain ⟨a, w⟩ := hd
    by_cases h : a = k
    · simp [objLookup, h]
    · simp [objLookup, h, ih]

/-- C10, counterexample: a document carrying a front-matter field named
`config` IS exposed in the context — it overwrites the entry holding the
site config, rather than being hidden. -/
theorem claim_c10_counterexample :
    objLookup (makeContext [("config", JsVal.s "X".data)] (0 : Nat)
        ([] : List (String × Unit))) "config" =
      some (CtxEntry.field (JsVal.s "X".data)) ∧
    (CtxEntry.field (JsVal.s "X".data) : CtxEntry Nat Unit) ≠
      CtxEntry.configEntry 0 := ⟨rfl, by simp⟩

/-- C10 (amended): name resolution in the render context follows the
precedence helpers > document fields > the `config` entry: a bound
helper overwrites a same-named document field (which is then not
exposed), and a document field named `config` overwrites — and is
therefore exposed in place of — the entry holding the site config. -/
theorem claim_c10_context_precedence :
    ∀ (γ κ : Type) (document : Doc) (config : γ) (helpers : List (String × κ))
      (k : String),
      (document.map Prod.fst).Nodup → (helpers.map Prod.fst).Nodup →
      objLookup (makeContext document config helpers) k =
        match objLookup helpers k with
        | some hf => some (CtxEntry.helperFn hf)
        | none =>
          match objLookup document k with
          | some v => some (CtxEntry.field v)
          | none =>
            if k = "config" then some (CtxEntry.configEntry config) else none := by
  intro γ κ document config helpers k hnd hnh
  have hfold : makeContext document config helpers =
      jsSpread (jsSpread [("config", CtxEntry.configEntry config)]
        (document.map (fun kv => (kv.1, CtxEntry.field kv.2))))
        (helpers.map (fun nh => (nh.1, CtxEntry.helperFn nh.2))) := by
    show (helpers.foldl (fun ctx nh => objSet ctx nh.1 (CtxEntry.helperFn nh.2))
      (document.foldl (fun ctx kv => objSet ctx kv.1 (CtxEntry.field kv.2))
        [("config", CtxEntry.configEntry config)])) = _
    unfold jsSpread
    rw [List.foldl_map, List.foldl_map]
  have hkeysH : (helpers.map (fun nh => (nh.1, CtxEntry.helperFn (γ := γ) nh.2))).map
      Prod.fst = helpers.map Prod.fst := by
    rw [List.map_map]
    rfl
  have hkeysD : (document.map (fun kv => (kv.1, CtxEntry.field (γ := γ) (κ := κ)
      kv.2))).map Prod.fst = document.map Prod.fst := by
    rw [List.map_map]
    rfl
  rw [hfold, objLookup_jsSpread _ _ _ (hkeysH ▸ hnh),
    objLookup_jsSpread _ _ _ (hkeysD ▸ hnd), objLookup_map_value,
    objLookup_map_value]
  rcases hh : objLookup helpers k with _ | hf
  · rcases hdoc : objLookup document k with _ | v
    · simp only [Option.map_none', Option.none_or]
      by_cases hc : k = "config"
      · subst hc
        simp [objLookup]
      · simp [objLookup, hc, Ne.symm hc]
    · simp [Option.or]
  · simp [Option.or]

/-- Witness for C10: the precedence at a concrete context where the
document carries a `config` field and no helper shares its name. -/
theorem claim_c10_witness :
    (([("config", JsVal.s "X".data)] : Doc).map Prod.fst).Nodup ∧
    (([] : List (String × Unit)).map Prod.fst).Nodup ∧
    objLookup (makeContext [("config", JsVal.s "X".data)] (0 : Nat)
        ([] : List (String × Unit))) "config" =
      match objLookup ([] : List (String × Unit)) "config" with
      | some hf => some (CtxEntry.helperFn hf)
      | none =>
        match objLookup ([("config", JsVal.s "X".data)] : Doc) "config" with
        | some v => some (CtxEntry.field v)
        | none =>
          if ("config" : String) = "config" then
            some (CtxEntry.configEntry (0 : Nat)) else none :=
  ⟨by simp, by simp,
    claim_c10_context_precedence Nat Unit [("config", JsVal.s "X".data)] 0 []
      "config" (by simp) (by simp)⟩
